import Mathlib

/-!
Verification of the gamut-boundary chroma derivation of
tools/derive_filmic_v6_gamut_mapping.py (the GamutChromaSolver core).

The script builds, symbolically, the composed colour pipeline

  Yrg (polar chroma/hue to Yrg) -> normalized rgb -> lms (fixed matrix)
  -> luminance-normalized LMS -> one channel of a target RGB space,

and then solves `component = k` for the chroma unknown `c` with the
real solution-set solver of the symbolic engine.

The embedding below is polymorphic in a field K so that the same
definitions can be read over the reals (the domain the solver works in)
and over the complex numbers (to speak about roots with a non-zero
imaginary part).  All numeric constants of the script are exact decimal
fractions and are embedded as rational literals cast into K.
-/

namespace DeriveFilmicV6

variable {K : Type*} [Field K]

/-- Source line `Yrg = Matrix([[Y, c * ch + 0.21902143, c * sh + 0.54371398]]).transpose()`:
polar coordinates (luminance Y, chroma c, hue cosine ch, hue sine sh) to the Yrg triple. -/
def Yrg (Y c ch sh : K) : K × K × K :=
  (Y, c * ch + ((0.21902143 : ℚ) : K), c * sh + ((0.54371398 : ℚ) : K))

/-- Source lines `r = Yrg[1, 0]`, `g = Yrg[2, 0]`,
`rgb = Matrix([[r, g, 1 - r - g]]).transpose()`: the normalized rgb triple. -/
def rgb (v : K × K × K) : K × K × K :=
  (v.2.1, v.2.2, 1 - v.2.1 - v.2.2)

/-- Source matrix `rgb_to_lms`, kept as its three rows. -/
def rgb_to_lms : (K × K × K) × (K × K × K) × (K × K × K) :=
  ((((0.95 : ℚ) : K), ((0.38 : ℚ) : K), 0),
   (((0.05 : ℚ) : K), ((0.62 : ℚ) : K), ((0.03 : ℚ) : K)),
   (0, 0, ((0.97 : ℚ) : K)))

/-- Dot product of two triples (one entry of a matrix-vector product). -/
def dot3 (u v : K × K × K) : K := u.1 * v.1 + u.2.1 * v.2.1 + u.2.2 * v.2.2

/-- Source line `lms = rgb_to_lms * rgb`. -/
def lms (v : K × K × K) : K × K × K :=
  (dot3 rgb_to_lms.1 v, dot3 rgb_to_lms.2.1 v, dot3 rgb_to_lms.2.2 v)

/-- The luminance expression `0.68990272 * lms[0, 0] + 0.34832189 * lms[1, 0]`
appearing as the denominator in the source line defining `coeff`. -/
def lumin (l : K × K × K) : K :=
  ((0.68990272 : ℚ) : K) * l.1 + ((0.34832189 : ℚ) : K) * l.2.1

/-- Source line `coeff = Y / (0.68990272 * lms[0, 0] + 0.34832189 * lms[1, 0])`. -/
def coeff (Y : K) (l : K × K × K) : K := Y / lumin l

/-- Source line `LMS = coeff * lms`: the luminance-normalized cone response. -/
def LMS (Y : K) (l : K × K × K) : K × K × K :=
  (coeff Y l * l.1, coeff Y l * l.2.1, coeff Y l * l.2.2)

/-- Source line `component = (A * LMS)[0, 0]` with `A = Matrix([[a1, a2, a3]])`,
applied to the composed pipeline: one channel of the target RGB space as a
function of luminance Y, chroma c, hue (ch, sh) and the row (a1, a2, a3). -/
def component (Y c ch sh a1 a2 a3 : K) : K :=
  dot3 (a1, a2, a3) (LMS Y (lms (rgb (Yrg Y c ch sh))))

/-- Source line `solveset_real(component - k, c)`: the set of real values of the
unknown c at which the composed expression is defined (its denominator does not
vanish) and equals the target extreme k.  This is the solution set over the
reals that the symbolic solver of the script computes. -/
def solveForChroma (Y ch sh a1 a2 a3 k : ℝ) : Set ℝ :=
  {c : ℝ | lumin (lms (rgb (Yrg Y c ch sh))) ≠ 0 ∧ component Y c ch sh a1 a2 a3 = k}

/-- The same solution set read over the complex numbers: the complex roots of
the composed expression, where it is defined. -/
def solveForChromaC (Y ch sh a1 a2 a3 k : ℂ) : Set ℂ :=
  {c : ℂ | lumin (lms (rgb (Yrg Y c ch sh))) ≠ 0 ∧ component Y c ch sh a1 a2 a3 = k}

/-- The chromaticity part of the pipeline: the normalized rgb triple as a
function of chroma and hue only (the luminance component of Yrg is dropped by
the projection to r and g). -/
def rgbOf (c ch sh : K) : K × K × K := rgb (Yrg 0 c ch sh)

/-- Slope in the chroma unknown of the luminance denominator. -/
def dSlope (ch sh : K) : K := lumin (lms (rgbOf 1 ch sh)) - lumin (lms (rgbOf 0 ch sh))

/-- Constant term (value at zero chroma) of the luminance denominator;
it does not depend on the hue. -/
def dConst : K := lumin (lms (rgbOf 0 0 0))

/-- Slope in the chroma unknown of the projected (un-normalized) channel. -/
def nSlope (ch sh a1 a2 a3 : K) : K :=
  dot3 (a1, a2, a3) (lms (rgbOf 1 ch sh)) - dot3 (a1, a2, a3) (lms (rgbOf 0 ch sh))

/-- Constant term of the projected (un-normalized) channel. -/
def nConst (a1 a2 a3 : K) : K := dot3 (a1, a2, a3) (lms (rgbOf 0 0 0))

/-- Modelled from the spec: the white-point offset r₀ stated in the data model. -/
def spec_r0 : ℝ := 0.21902143

/-- Modelled from the spec: the white-point offset r₀′ stated in the data model. -/
def spec_g0 : ℝ := 0.54371398

/-- Modelled from the spec: the first luminance weight w₁ stated in the data model. -/
def spec_w1 : ℝ := 0.68990272

/-- Modelled from the spec: the second luminance weight w₂ stated in the data model. -/
def spec_w2 : ℝ := 0.34832189

/- ------------------------------------------------------------------ -/
/- Helper lemmas -/

lemma rgb_Yrg (Y c ch sh : K) : rgb (Yrg Y c ch sh) = rgbOf c ch sh := rfl

/-- The composed channel expression is the rational function
Y * (projected lms) / (luminance denominator) of the chroma unknown. -/
lemma component_eq (Y c ch sh a1 a2 a3 : K) :
    component Y c ch sh a1 a2 a3
      = Y * dot3 (a1, a2, a3) (lms (rgbOf c ch sh)) / lumin (lms (rgbOf c ch sh)) := by
  rcases eq_or_ne (lumin (lms (rgbOf c ch sh))) 0 with h | h
  · simp [component, LMS, coeff, dot3, rgb_Yrg, h]
  · rw [component, rgb_Yrg]
    field_simp [LMS, coeff, dot3]
    ring

/-- The luminance denominator is affine in the chroma unknown. -/
lemma lumin_affine (c ch sh : K) :
    lumin (lms (rgbOf c ch sh)) = dSlope ch sh * c + dConst := by
  simp only [lumin, lms, rgbOf, rgb, Yrg, dot3, rgb_to_lms, dSlope, dConst]
  ring

/-- The projected (un-normalized) channel is affine in the chroma unknown. -/
lemma proj_affine (c ch sh a1 a2 a3 : K) :
    dot3 (a1, a2, a3) (lms (rgbOf c ch sh)) = nSlope ch sh a1 a2 a3 * c + nConst a1 a2 a3 := by
  simp only [lms, rgbOf, rgb, Yrg, dot3, rgb_to_lms, nSlope, nConst]
  ring

/-- The constant term of the luminance denominator is a non-zero real. -/
lemma dConst_ne_zero : (dConst : ℝ) ≠ 0 := by
  norm_num [dConst, lumin, lms, rgbOf, rgb, Yrg, dot3, rgb_to_lms]

/-- Reading the luminance denominator over ℂ at real inputs agrees with
reading it over ℝ. -/
lemma lumin_cast (Y c ch sh : ℝ) :
    lumin (lms (rgb (Yrg (Y : ℂ) (c : ℂ) (ch : ℂ) (sh : ℂ))))
      = ((lumin (lms (rgb (Yrg Y c ch sh))) : ℝ) : ℂ) := by
  simp only [lumin, lms, rgb, Yrg, dot3, rgb_to_lms]
  push_cast
  norm_num

/-- Reading the composed channel expression over ℂ at real inputs agrees with
reading it over ℝ. -/
lemma component_cast (Y c ch sh a1 a2 a3 : ℝ) :
    component (Y : ℂ) (c : ℂ) (ch : ℂ) (sh : ℂ) (a1 : ℂ) (a2 : ℂ) (a3 : ℂ)
      = ((component Y c ch sh a1 a2 a3 : ℝ) : ℂ) := by
  simp only [component, LMS, coeff, lumin, lms, rgb, Yrg, dot3, rgb_to_lms]
  push_cast
  norm_num

/-- At zero chroma the chromaticity triple does not depend on the hue. -/
lemma rgbOf_zero (ch sh : K) : rgbOf 0 ch sh = rgbOf 0 0 0 := by
  simp [rgbOf, rgb, Yrg]

/- ------------------------------------------------------------------ -/
/- Claim theorems -/

/-- C4: for every Y, c, h the triple produced by the normalized-rgb step of
the pipeline satisfies the closure invariant r + g + b = 1 exactly, with no
restriction of the components to the unit interval. -/
theorem rgb_closure (Y c ch sh : ℝ) :
    (rgb (Yrg Y c ch sh)).1 + (rgb (Yrg Y c ch sh)).2.1 + (rgb (Yrg Y c ch sh)).2.2 = 1 := by
  simp only [rgb, Yrg]
  ring

/-- C6: at chroma c = 0 the forward evaluation of the composed pipeline does
not depend on the hue: for any two hues (given by their cosine/sine pairs) the
channel value is the same. -/
theorem achromatic_hue_invariant (Y a1 a2 a3 ch1 sh1 ch2 sh2 : ℝ) :
    component Y 0 ch1 sh1 a1 a2 a3 = component Y 0 ch2 sh2 a1 a2 a3 := by
  rw [component_eq, component_eq, rgbOf_zero ch1 sh1, rgbOf_zero ch2 sh2]

/-- C7: the fixed constants of the computation equal the reference values
stated in the spec: the white-point offsets in Yrg, the luminance weights in
the normalization denominator and coefficient, and the 3x3 RGB-to-LMS matrix;
all are fixed definitions, never altered per call. -/
theorem constants_match_spec :
    (∀ Y c ch sh : ℝ, Yrg Y c ch sh = (Y, c * ch + spec_r0, c * sh + spec_g0))
  ∧ (∀ l : ℝ × ℝ × ℝ, lumin l = spec_w1 * l.1 + spec_w2 * l.2.1)
  ∧ (∀ (Y : ℝ) (l : ℝ × ℝ × ℝ), coeff Y l = Y / (spec_w1 * l.1 + spec_w2 * l.2.1))
  ∧ rgb_to_lms = (((0.95 : ℝ), 0.38, 0), ((0.05 : ℝ), 0.62, 0.03), ((0 : ℝ), 0, 0.97)) := by
  refine ⟨fun Y c ch sh => ?_, fun l => ?_, fun Y l => ?_, ?_⟩ <;>
    norm_num [Yrg, lumin, coeff, rgb_to_lms, spec_r0, spec_g0, spec_w1, spec_w2, Prod.ext_iff]

/-- C8: the solver and every operation of the composed pipeline are
deterministic: equal inputs give equal outputs (they are pure functions of
their arguments, with no hidden state). -/
theorem pipeline_deterministic (Y ch sh a1 a2 a3 k c : ℝ) :
    solveForChroma Y ch sh a1 a2 a3 k = solveForChroma Y ch sh a1 a2 a3 k
  ∧ component Y c ch sh a1 a2 a3 = component Y c ch sh a1 a2 a3
  ∧ Yrg Y c ch sh = Yrg Y c ch sh
  ∧ rgb (Yrg Y c ch sh) = rgb (Yrg Y c ch sh)
  ∧ lms (rgb (Yrg Y c ch sh)) = lms (rgb (Yrg Y c ch sh))
  ∧ LMS Y (lms (rgb (Yrg Y c ch sh))) = LMS Y (lms (rgb (Yrg Y c ch sh))) :=
  ⟨rfl, rfl, rfl, rfl, rfl, rfl⟩

/-- C3: whenever the normalization denominator is non-zero, the scaled cone
response satisfies w1 * L_scaled + w2 * M_scaled = Y exactly. -/
theorem scaled_luminance_eq (Y c ch sh : ℝ)
    (h : lumin (lms (rgb (Yrg Y c ch sh))) ≠ 0) :
    (0.68990272 : ℝ) * (LMS Y (lms (rgb (Yrg Y c ch sh)))).1
      + (0.34832189 : ℝ) * (LMS Y (lms (rgb (Yrg Y c ch sh)))).2.1 = Y := by
  set l := lms (rgb (Yrg Y c ch sh)) with hl
  simp only [LMS, coeff]
  have h2 : (0.68990272 : ℝ) * (Y / lumin l * l.1) + (0.34832189 : ℝ) * (Y / lumin l * l.2.1)
      = Y / lumin l * lumin l := by
    simp only [lumin]
    push_cast
    ring
  rw [h2, div_mul_cancel₀ _ h]

/-- Witness for C3 at the concrete input Y = 1, c = 0, ch = 1, sh = 0. -/
theorem scaled_luminance_eq_witness :
    (0.68990272 : ℝ) * (LMS 1 (lms (rgb (Yrg 1 0 1 0)))).1
      + (0.34832189 : ℝ) * (LMS 1 (lms (rgb (Yrg 1 0 1 0)))).2.1 = 1 :=
  scaled_luminance_eq 1 0 1 0 (by norm_num [lumin, lms, rgb, Yrg, dot3, rgb_to_lms])

/-- C10: the composed channel expression is homogeneous of degree 1 in the
luminance: the normalized rgb triple and the pre-normalization lms values do
not depend on Y, and scaling Y scales the projected channel value by the same
factor (the denominator does not depend on Y, so non-degeneracy at Y is the
same condition at lam * Y). -/
theorem component_luminance_homogeneous (Y lam c ch sh a1 a2 a3 : ℝ)
    (h : lumin (lms (rgb (Yrg Y c ch sh))) ≠ 0) :
    rgb (Yrg (lam * Y) c ch sh) = rgb (Yrg Y c ch sh)
  ∧ lms (rgb (Yrg (lam * Y) c ch sh)) = lms (rgb (Yrg Y c ch sh))
  ∧ component (lam * Y) c ch sh a1 a2 a3 = lam * component Y c ch sh a1 a2 a3 := by
  refine ⟨rfl, rfl, ?_⟩
  rw [component_eq, component_eq, mul_assoc, mul_div_assoc]

/-- Witness for C10 at the concrete input Y = 1, lam = 2, c = 0, ch = 1,
sh = 0, row (1, 0, 0). -/
theorem component_luminance_homogeneous_witness :
    lumin (lms (rgb (Yrg (1 : ℝ) 0 1 0))) ≠ 0
  ∧ component ((2 : ℝ) * 1) 0 1 0 1 0 0 = 2 * component (1 : ℝ) 0 1 0 1 0 0 := by
  refine ⟨by norm_num [lumin, lms, rgb, Yrg, dot3, rgb_to_lms], ?_⟩
  exact (component_luminance_homogeneous 1 2 0 1 0 1 0 0
    (by norm_num [lumin, lms, rgb, Yrg, dot3, rgb_to_lms])).2.2

/-- C1: the set returned by the solver is exactly the set of real roots of the
composed equation: every returned chroma makes the forward pipeline evaluate
to k (soundness), every real value in the domain of the expression at which
the pipeline evaluates to k is returned (completeness), the returned set is
exactly the real trace of the complex solution set, and no value with a
non-zero imaginary part is ever in the returned set. -/
theorem solveForChroma_exact_real_roots (Y ch sh a1 a2 a3 k : ℝ) :
    (∀ x ∈ solveForChroma Y ch sh a1 a2 a3 k,
        dot3 (a1, a2, a3) (LMS Y (lms (rgb (Yrg Y x ch sh)))) = k)
  ∧ (∀ x : ℝ, lumin (lms (rgb (Yrg Y x ch sh))) ≠ 0 →
        dot3 (a1, a2, a3) (LMS Y (lms (rgb (Yrg Y x ch sh)))) = k →
        x ∈ solveForChroma Y ch sh a1 a2 a3 k)
  ∧ solveForChroma Y ch sh a1 a2 a3 k
      = Set.preimage Complex.ofReal
          (solveForChromaC (Y : ℂ) (ch : ℂ) (sh : ℂ) (a1 : ℂ) (a2 : ℂ) (a3 : ℂ) (k : ℂ))
  ∧ (∀ z : ℂ, z.im ≠ 0 → z ∉ Complex.ofReal '' solveForChroma Y ch sh a1 a2 a3 k) := by
  refine ⟨fun x hx => hx.2, fun x h1 h2 => ⟨h1, h2⟩, ?_, ?_⟩
  · ext x
    simp only [solveForChroma, solveForChromaC, Set.mem_setOf_eq, Set.mem_preimage]
    rw [lumin_cast, component_cast]
    norm_cast
  · intro z hz hmem
    obtain ⟨x, _, rfl⟩ := hmem
    exact hz (Complex.ofReal_im x)

/-- Witness for C1 at Y = 1, ch = 1, sh = 0, row (1, 0, 0) and target k equal
to the neutral-axis value, where chroma 0 is a root: completeness puts 0 in
the returned set and soundness evaluates the pipeline back to k there. -/
theorem solveForChroma_exact_real_roots_witness :
    (0 : ℝ) ∈ solveForChroma 1 1 0 1 0 0 (component (1 : ℝ) 0 1 0 1 0 0)
  ∧ dot3 ((1 : ℝ), 0, 0) (LMS 1 (lms (rgb (Yrg 1 0 1 0)))) = component (1 : ℝ) 0 1 0 1 0 0 := by
  have hmem : (0 : ℝ) ∈ solveForChroma 1 1 0 1 0 0 (component (1 : ℝ) 0 1 0 1 0 0) :=
    (solveForChroma_exact_real_roots 1 1 0 1 0 0 (component (1 : ℝ) 0 1 0 1 0 0)).2.1 0
      (by norm_num [lumin, lms, rgb, Yrg, dot3, rgb_to_lms]) rfl
  exact ⟨hmem, (solveForChroma_exact_real_roots 1 1 0 1 0 0 (component (1 : ℝ) 0 1 0 1 0 0)).1 0 hmem⟩

/-- C2 counterexample: at a concrete cone-response input whose normalization
denominator is exactly zero, the normalization step of the code signals no
error condition: it is a total expression and still produces a triple (the
degenerate scaled response), so no error branch is taken. -/
theorem normalize_no_error_at_degenerate :
    lumin ((0.34832189 : ℝ), -0.68990272, 0) = 0
  ∧ LMS 1 ((0.34832189 : ℝ), -0.68990272, 0) = (0, 0, 0) := by
  constructor
  · norm_num [lumin]
  · norm_num [LMS, coeff, lumin, Prod.ext_iff]

/-- C2 (amended): the code signals no DegenerateNormalization error anywhere;
instead, every chroma at which the normalization denominator vanishes is
excluded from the set returned by the solver, so a degenerate colour never
contributes a chroma boundary. -/
theorem solveForChroma_excludes_degenerate (Y ch sh a1 a2 a3 k x : ℝ)
    (hx : x ∈ solveForChroma Y ch sh a1 a2 a3 k) :
    lumin (lms (rgb (Yrg Y x ch sh))) ≠ 0 := hx.1

/-- Witness for the amended C2 at a concrete root of the returned set. -/
theorem solveForChroma_excludes_degenerate_witness :
    lumin (lms (rgb (Yrg (1 : ℝ) 0 1 0))) ≠ 0 :=
  solveForChroma_excludes_degenerate 1 1 0 1 0 0 (component (1 : ℝ) 0 1 0 1 0 0) 0
    ⟨by norm_num [lumin, lms, rgb, Yrg, dot3, rgb_to_lms], rfl⟩

/-- C5: the composed channel expression is a rational function of the chroma
unknown: there are polynomials p and q, with q not identically zero, such that
the projected channel value is p(c)/q(c); chroma also enters the r and g
coordinates linearly, so the boundary equation is a rational equation in c. -/
theorem component_rational (Y ch sh a1 a2 a3 : ℝ) :
    (∀ c : ℝ, (Yrg Y c ch sh).2.1 = c * ch + 0.21902143)
  ∧ (∀ c : ℝ, (Yrg Y c ch sh).2.2 = c * sh + 0.54371398)
  ∧ ∃ p q : Polynomial ℝ, q ≠ 0 ∧
      ∀ c : ℝ, component Y c ch sh a1 a2 a3 = p.eval c / q.eval c := by
  refine ⟨fun c => by norm_num [Yrg], fun c => by norm_num [Yrg], ?_⟩
  refine ⟨Polynomial.C (Y * nSlope ch sh a1 a2 a3) * Polynomial.X
            + Polynomial.C (Y * nConst a1 a2 a3),
          Polynomial.C (dSlope ch sh) * Polynomial.X + Polynomial.C dConst, ?_, ?_⟩
  · intro h0
    have h1 : (Polynomial.C (dSlope ch sh) * Polynomial.X
        + Polynomial.C (dConst : ℝ)).eval 0 = 0 := by rw [h0]; simp
    simp only [Polynomial.eval_add, Polynomial.eval_mul, Polynomial.eval_C,
      Polynomial.eval_X, mul_zero, zero_add] at h1
    exact dConst_ne_zero h1
  · intro c
    rw [component_eq, proj_affine, lumin_affine]
    simp only [Polynomial.eval_add, Polynomial.eval_mul, Polynomial.eval_C, Polynomial.eval_X]
    rw [show Y * (nSlope ch sh a1 a2 a3 * c + nConst a1 a2 a3)
        = Y * nSlope ch sh a1 a2 a3 * c + Y * nConst a1 a2 a3 from by ring]

/-- C9: the numerator and the denominator of the composed channel expression
are affine in the chroma unknown, and unless the boundary equation is
identically satisfied on the domain of the expression it has at most one real
solution: the returned set is a subsingleton. -/
theorem boundary_equation_linear (Y ch sh a1 a2 a3 k : ℝ) :
    (∀ c : ℝ, component Y c ch sh a1 a2 a3
        = (Y * nSlope ch sh a1 a2 a3 * c + Y * nConst a1 a2 a3)
            / (dSlope ch sh * c + dConst))
  ∧ ((¬ ∀ c : ℝ, dSlope ch sh * c + dConst ≠ 0 → component Y c ch sh a1 a2 a3 = k) →
      Set.Subsingleton (solveForChroma Y ch sh a1 a2 a3 k)) := by
  have hrat : ∀ c : ℝ, component Y c ch sh a1 a2 a3
      = (Y * nSlope ch sh a1 a2 a3 * c + Y * nConst a1 a2 a3)
          / (dSlope ch sh * c + dConst) := by
    intro c
    rw [component_eq, proj_affine, lumin_affine]
    rw [show Y * (nSlope ch sh a1 a2 a3 * c + nConst a1 a2 a3)
        = Y * nSlope ch sh a1 a2 a3 * c + Y * nConst a1 a2 a3 from by ring]
  refine ⟨hrat, ?_⟩
  intro hne x hx y hy
  push_neg at hne
  obtain ⟨c0, hc0D, hc0k⟩ := hne
  have hDx : dSlope ch sh * x + dConst ≠ 0 := by
    rw [← lumin_affine]; exact hx.1
  have hDy : dSlope ch sh * y + dConst ≠ 0 := by
    rw [← lumin_affine]; exact hy.1
  have hEx : Y * nSlope ch sh a1 a2 a3 * x + Y * nConst a1 a2 a3
      = k * (dSlope ch sh * x + dConst) := by
    have h1 := hx.2
    rw [hrat x, div_eq_iff hDx] at h1
    exact h1
  have hEy : Y * nSlope ch sh a1 a2 a3 * y + Y * nConst a1 a2 a3
      = k * (dSlope ch sh * y + dConst) := by
    have h1 := hy.2
    rw [hrat y, div_eq_iff hDy] at h1
    exact h1
  have hE0 : Y * nSlope ch sh a1 a2 a3 * c0 + Y * nConst a1 a2 a3
      ≠ k * (dSlope ch sh * c0 + dConst) := by
    intro habs
    apply hc0k
    rw [hrat c0, habs, mul_div_assoc, div_self hc0D, mul_one]
  have hlx : (Y * nSlope ch sh a1 a2 a3 - k * dSlope ch sh) * x
      + (Y * nConst a1 a2 a3 - k * dConst) = 0 := by linear_combination hEx
  have hly : (Y * nSlope ch sh a1 a2 a3 - k * dSlope ch sh) * y
      + (Y * nConst a1 a2 a3 - k * dConst) = 0 := by linear_combination hEy
  have hl0 : (Y * nSlope ch sh a1 a2 a3 - k * dSlope ch sh) * c0
      + (Y * nConst a1 a2 a3 - k * dConst) ≠ 0 := by
    intro habs
    exact hE0 (by linear_combination habs)
  have ha : Y * nSlope ch sh a1 a2 a3 - k * dSlope ch sh ≠ 0 := by
    intro h0
    apply hl0
    rw [h0, zero_mul, zero_add]
    have := hlx
    rw [h0, zero_mul, zero_add] at this
    exact this
  have hxy : (Y * nSlope ch sh a1 a2 a3 - k * dSlope ch sh) * x
      = (Y * nSlope ch sh a1 a2 a3 - k * dSlope ch sh) * y := by
    linear_combination hlx - hly
  exact mul_left_cancel₀ ha hxy

/-- Witness for C9: at Y = 1, hue (1, 0), row (1, 0, 0) and target 0, the
boundary equation is not identically satisfied, so the returned set has at
most one element. -/
theorem boundary_equation_linear_witness :
    Set.Subsingleton (solveForChroma 1 1 0 1 0 0 0) :=
  (boundary_equation_linear 1 1 0 1 0 0 0).2 (by
    intro hall
    have h := hall 0
      (by norm_num [dSlope, dConst, lumin, lms, rgbOf, rgb, Yrg, dot3, rgb_to_lms])
    norm_num [component, LMS, coeff, lumin, lms, rgb, Yrg, dot3, rgb_to_lms] at h)

end DeriveFilmicV6
